import Mathlib

/-!
# ld-agent-go: plugin loader and tool registry

A shallow embedding of `types.go`, `errors.go` and `loader.go` of ld-agent-go, and
the properties of the compatibility gate, the tool registry, the reflective call
path and the loader that were checked against it.

Conventions of the embedding.

* Go strings are Lean strings; the byte-wise functions of package `strings` that
  the code uses are read character-wise, which agrees with them on valid UTF-8.
* A Go map is a duplicate-free association list (`GoMap`).  The order in which a
  `range` statement visits a map is not fixed by the language, so every function
  that ranges over a map takes a `RangeOrder`: the order that particular `range`
  statement happens to produce.
* Code with side effects is written in state-passing style: a method with a
  pointer receiver returns the new value of its receiver.
* A run-time panic is an explicit outcome.
-/

namespace LdAgent

/-! ## Package `strings` and `path/filepath` -/

/-- Go's `strings.HasPrefix(s, p)`: `len(s) >= len(p) && s[:len(p)] == p`. -/
def HasPrefix (s p : String) : Bool :=
  decide (p.length ≤ s.length) && (s.data.take p.length == p.data)

/-- Go's `strings.HasSuffix(s, x)`: `len(s) >= len(x) && s[len(s)-len(x):] == x`. -/
def HasSuffix (s x : String) : Bool :=
  decide (x.length ≤ s.length) && (s.data.drop (s.length - x.length) == x.data)

/-- Go's `strings.TrimSuffix(s, x)`: `s` without the trailing `x` when it has one. -/
def TrimSuffix (s x : String) : String :=
  if HasSuffix s x then ⟨s.data.take (s.length - x.length)⟩ else s

/-- The first loop of `filepath.Base`: strip trailing path separators. -/
def stripTrailingSlashes : List Char → List Char
  | [] => []
  | c :: cs =>
    match stripTrailingSlashes cs with
    | [] => if c = '/' then [] else [c]
    | r => c :: r

/-- The second loop of `filepath.Base`: the part after the last separator. -/
def lastElement : List Char → List Char
  | [] => []
  | c :: cs => if '/' ∈ cs then lastElement cs else if c = '/' then cs else c :: cs

/-- Go's `filepath.Base` on a system whose separator is `/` and that has no
volume names: the last element of the path, `"."` for the empty path and `"/"`
for a path of separators only. -/
def Base (path : String) : String :=
  if path = "" then "."
  else
    let e := lastElement (stripTrailingSlashes path.data)
    if e = [] then "/" else ⟨e⟩

/-! ## Go maps -/

/-- A Go `map[string]α` that has been made (not the nil map): its entries, no key
twice.  The position of an entry in the list carries no meaning. -/
structure GoMap (α : Type) where
  entries : List (String × α)
  nodup : (entries.map Prod.fst).Nodup

namespace GoMap

variable {α : Type}

/-- The map `make(map[string]α)`. -/
def empty : GoMap α := ⟨[], List.nodup_nil⟩

/-- The keys of the map. -/
def keys (m : GoMap α) : List String := m.entries.map Prod.fst

/-- The value of `len(m)`. -/
def len (m : GoMap α) : Nat := m.entries.length

/-- The lookup `v, ok := m[k]`, with `none` for `ok == false`. -/
def get? (m : GoMap α) (k : String) : Option α :=
  (m.entries.find? (fun e => e.1 == k)).map Prod.snd

/-- The assignment `m[k] = v`: the entry for `k` is replaced, or added. -/
def set (m : GoMap α) (k : String) (v : α) : GoMap α :=
  ⟨(k, v) :: m.entries.filter (fun e => e.1 != k), by
    simp only [List.map_cons, List.nodup_cons]
    refine ⟨?_, (m.nodup.sublist ((List.filter_sublist m.entries).map Prod.fst))⟩
    intro h
    obtain ⟨e, he, hk⟩ := List.mem_map.1 h
    have := (List.mem_filter.1 he).2
    simp [hk] at this⟩

end GoMap

/-- The order in which one `range` statement visits the entries of a map: some
rearrangement of them, which Go leaves unspecified and varies from one `range`
statement to the next. -/
structure RangeOrder (α : Type) where
  order : List (String × α) → List (String × α)
  perm : ∀ l, (order l).Perm l

/-- The `range` order that visits the entries as they are stored. -/
def RangeOrder.stored {α : Type} : RangeOrder α := ⟨id, fun l => List.Perm.refl l⟩

/-- The `range` order that visits the entries in the opposite direction. -/
def RangeOrder.reversed {α : Type} : RangeOrder α :=
  ⟨List.reverse, fun l => List.reverse_perm l⟩

/-- The entries a `range` statement over `m` visits, in order. -/
def GoMap.range {α : Type} (m : GoMap α) (ρ : RangeOrder α) : List (String × α) :=
  ρ.order m.entries

/-! ## `errors.go` -/

/-- The error values of `errors.go`, and `fmt.Errorf("%w: %v", e, cause)`. -/
inductive GoError where
  | ErrToolNotFound
  | ErrInvalidTool
  | ErrPluginLoadFailed
  | ErrIncompatiblePlugin
  | ErrMissingMetadata
  | ErrMissingExports
  | wrapped (e : GoError) (cause : String)
  deriving DecidableEq, Repr

/-! ## `types.go`: descriptors -/

/-- The struct `EnvVar`. -/
structure EnvVar where
  Description : String
  Default : String
  Required : Bool
  deriving DecidableEq, Repr

/-- The struct `ModuleInfo`. -/
structure ModuleInfo where
  Name : String
  Description : String
  Author : String
  Version : String
  Platform : String
  PythonRequires : String
  GoRequires : String
  Dependencies : List String
  EnvironmentVariables : List (String × EnvVar)
  deriving DecidableEq, Repr

/-! ## Go values and package `reflect` -/

/-- The operations on `float64` that the embedding uses: the zero value, addition,
and the conversions from and to `int`.  The embedding is generic in the carrier
`F` of `float64` values. -/
class Float64 (F : Type) where
  zero : F
  add : F → F → F
  ofInt : Int → F
  toInt : F → Int

/-- The types of arguments and parameters the embedding covers. -/
inductive GoType where
  | bool
  | int
  | float64
  | string
  deriving DecidableEq, Repr

/-- A value held in an `interface{}`: the nil interface, or a value of one of the
types of `GoType`.  It also stands for the `reflect.Value` made of it by
`reflect.ValueOf`, `nil` being the zero `reflect.Value`. -/
inductive Value (F : Type) where
  | nil
  | bool (b : Bool)
  | int (n : Int)
  | float64 (x : F)
  | string (s : String)
  deriving DecidableEq, Repr

/-- A Go function value that is not variadic, seen through `reflect`: the types
`fnType.In(i)` of its formal parameters, and what a call of it returns;
`code = none` is the nil value of a function type. -/
structure Func (F : Type) where
  In : List GoType
  code : Option (List (Value F) → List (Value F))

/-- What the field `Tool.Function` of type `interface{}` holds: a plain value
(which includes the nil interface) or a function value. -/
inductive Any (F : Type) where
  | value (v : Value F)
  | func (f : Func F)

/-- The kinds of `reflect.Kind` that can occur. -/
inductive Kind where
  | Invalid
  | Bool
  | Int
  | Float64
  | String
  | Func
  deriving DecidableEq, Repr

/-- The kind `reflect.ValueOf(x).Kind()`. -/
def Any.Kind {F : Type} : Any F → Kind
  | .value .nil => .Invalid
  | .value (.bool _) => .Bool
  | .value (.int _) => .Int
  | .value (.float64 _) => .Float64
  | .value (.string _) => .String
  | .func _ => .Func

/-- The type `v.Type()` of a `reflect.Value`; `none` is the panic of `Type` on the
zero `reflect.Value`. -/
def Value.Type_ {F : Type} : Value F → Option GoType
  | .nil => none
  | .bool _ => some .bool
  | .int _ => some .int
  | .float64 _ => some .float64
  | .string _ => some .string

/-- The relation `t.ConvertibleTo(u)` of `reflect` on the types of `GoType`:
integers convert to integers, floats and strings, floats to integers and floats,
strings to strings and booleans to booleans. -/
def ConvertibleTo : GoType → GoType → Bool
  | .int, .int => true
  | .int, .float64 => true
  | .int, .string => true
  | .float64, .int => true
  | .float64, .float64 => true
  | .string, .string => true
  | .bool, .bool => true
  | _, _ => false

/-- The string `string(rune(n))`: the character with code point `n`, or U+FFFD
when `n` is not a valid code point. -/
def runeString (n : Int) : String :=
  if 0 ≤ n ∧ n.toNat.isValidChar then String.singleton (Char.ofNat n.toNat)
  else String.singleton (Char.ofNat 0xFFFD)

/-- The value `reflect.Zero(t)`. -/
def Zero {F : Type} [Float64 F] : GoType → Value F
  | .bool => .bool false
  | .int => .int 0
  | .float64 => .float64 Float64.zero
  | .string => .string ""

/-- The value `v.Convert(t)`, for `v.Type().ConvertibleTo(t)`. -/
def Convert {F : Type} [Float64 F] : Value F → GoType → Value F
  | .int n, .float64 => .float64 (Float64.ofInt n)
  | .int n, .string => .string (runeString n)
  | .float64 x, .int => .int (Float64.toInt x)
  | v, _ => v

/-! ## `types.go`: tools and the registry -/

/-- The struct `Parameter`. -/
structure Parameter (F : Type) where
  Type_ : String
  Description : String
  Required : Bool
  Default : Value F

/-- The struct `Tool`. -/
structure Tool (F : Type) where
  Name : String
  Description : String
  Function : Any F
  Parameters : List (String × Parameter F)
  ReturnType : String

/-- The struct `ModuleExports`. -/
structure ModuleExports (F : Type) where
  Tools : List (Tool F)
  Agents : List (Value F)
  Resources : List (Value F)
  Models : List (Value F)
  Utilities : List (Tool F)

/-- The struct `Plugin`. -/
structure Plugin (F : Type) where
  Name : String
  Info : ModuleInfo
  Exports : ModuleExports F
  FilePath : String

/-- The struct `ToolRegistry`. -/
structure ToolRegistry (F : Type) where
  Tools : GoMap (Tool F)
  Plugins : GoMap (Plugin F)
  Metadata : GoMap ModuleInfo

section Registry

variable {F : Type}

/-- The function `NewToolRegistry`. -/
def NewToolRegistry : ToolRegistry F :=
  { Tools := GoMap.empty, Plugins := GoMap.empty, Metadata := GoMap.empty }

/-- The key under which `RegisterTool` stores a tool: the local `toolName`. -/
def toolName (pluginName : String) (tool : Tool F) : String :=
  pluginName ++ "." ++ tool.Name

/-- The method `ToolRegistry.RegisterTool`. -/
def ToolRegistry.RegisterTool (tr : ToolRegistry F) (pluginName : String) (tool : Tool F) :
    ToolRegistry F :=
  { tr with Tools := tr.Tools.set (toolName pluginName tool) tool }

/-- The method `ToolRegistry.GetTool`: `(tool, exists)`, as an option. -/
def ToolRegistry.GetTool (tr : ToolRegistry F) (name : String) : Option (Tool F) :=
  tr.Tools.get? name

/-- The method `ToolRegistry.ListTools`; `ρ` is the order of its `range`. -/
def ToolRegistry.ListTools (tr : ToolRegistry F) (ρ : RangeOrder (Tool F)) : List String :=
  (tr.Tools.range ρ).foldl (fun tools e => tools ++ [e.1]) []

/-- The function `getArgByIndex`; `ρ` is the order of its `range`. -/
def getArgByIndex (ρ : RangeOrder (Value F)) (args : GoMap (Value F)) (index : Nat) :
    Value F :=
  go (args.range ρ) 0
where
  /-- The loop of `getArgByIndex` over the entries not yet visited, with counter `i`. -/
  go : List (String × Value F) → Nat → Value F
    | [], _ => .nil
    | (_, v) :: rest, i => if i == index then v else go rest (i + 1)

/-- How a call of `CallTool` ends: it returns `(result, err)`, or it panics. -/
inductive Outcome (F : Type) where
  | returned (result : Value F) (err : Option GoError)
  | panicked (msg : String)

/-- What a call of `CallTool` did: how it ended, and the argument lists with which
it invoked the tool's function, in order. -/
structure Run (F : Type) where
  outcome : Outcome F
  invoked : List (List (Value F))

/-- The loop `for i := 0; i < fnType.NumIn(); i++` of `CallTool`: `params` are the
types `fnType.In(i)`, `fnType.In(i+1)`, ... still to come and `callArgs` the
arguments built so far.  The `range` of the call `getArgByIndex(args, i)` has
order `ρ i`.  An error is a panic. -/
def buildCallArgs [Float64 F] (ρ : Nat → RangeOrder (Value F)) (args : GoMap (Value F)) :
    List GoType → Nat → List (Value F) → Except String (List (Value F))
  | [], _, callArgs => .ok callArgs
  | paramType :: params, i, callArgs =>
    if i < args.len then
      let arg := getArgByIndex (ρ i) args i
      match arg.Type_ with
      | none => .error "reflect: call of reflect.Value.Type on zero Value"
      | some t =>
        if ConvertibleTo t paramType then
          buildCallArgs ρ args params (i + 1) (callArgs ++ [Convert arg paramType])
        else
          buildCallArgs ρ args params (i + 1) (callArgs ++ [Zero paramType])
    else
      buildCallArgs ρ args params (i + 1) (callArgs ++ [Zero paramType])

/-- The method `ToolRegistry.CallTool`.  The `range` of its `i`-th call of
`getArgByIndex` has order `ρ i`. -/
def ToolRegistry.CallTool [Float64 F] (tr : ToolRegistry F) (ρ : Nat → RangeOrder (Value F))
    (name : String) (args : GoMap (Value F)) : Run F :=
  match tr.Tools.get? name with
  | none => ⟨.returned .nil (some .ErrToolNotFound), []⟩
  | some tool =>
    -- Use reflection to call the function
    match tool.Function with
    | .value _ => ⟨.returned .nil (some .ErrInvalidTool), []⟩
    | .func fn =>
      match buildCallArgs ρ args fn.In 0 [] with
      | .error msg => ⟨.panicked msg, []⟩
      | .ok callArgs =>
        match fn.code with
        | none => ⟨.panicked "reflect: call of nil function", []⟩
        | some code =>
          match code callArgs with
          | result :: _ => ⟨.returned result none, [callArgs]⟩
          | [] => ⟨.returned .nil none, [callArgs]⟩

end Registry

/-! ## `loader.go`: the compatibility gate -/

/-- The method `Loader.isCompatible`; `GOOS` is `runtime.GOOS`.  The receiver is
not used by the body. -/
def isCompatible (GOOS : String) (info : ModuleInfo) : Bool :=
  -- Check platform
  if info.Platform != "any" && info.Platform != GOOS then
    false
  else
    -- Check Go version (basic check)
    if info.GoRequires != "" then
      if ! HasPrefix info.GoRequires ">=" then
        false
      else
        true
    else
      true

/-! ## `loader.go`: the loader -/

/-- The struct `Loader`. -/
structure Loader (F : Type) where
  PluginsDir : String
  Silent : Bool
  Registry : ToolRegistry F

/-- What `p.Lookup(name)` and the type assertion on its result yield: the symbol
is missing, has another type than the one asserted, or has that type. -/
inductive Symbol (α : Type) where
  | missing
  | wrongType
  | ok (v : α)

/-- An opened plugin, as far as `LoadPlugin` looks at it: its symbols
`ModuleInfo`, `ModuleExports` and `Init`.  A well-typed `Init` is a `func() error`;
it is given by what a call of it returns, `none` for a nil error. -/
structure PluginFile (F : Type) where
  ModuleInfo : Symbol ModuleInfo
  ModuleExports : Symbol (ModuleExports F)
  Init : Symbol (Option String)

/-- One call of the function that `LoadAll` hands to `filepath.Walk`: the path,
whether `info.IsDir()`, and the error `Walk` reports for the path, if any. -/
structure WalkStep where
  path : String
  IsDir : Bool
  err : Option String

/-- The environment of a loader: `runtime.GOOS`, `plugin.Open`, whether
`os.IsNotExist` holds of the error of `os.Stat`, and the calls `filepath.Walk`
makes for a root as long as the function it is given returns nil. -/
structure Host (F : Type) where
  GOOS : String
  Open : String → Except String (PluginFile F)
  IsNotExist : String → Bool
  Walk : String → List WalkStep

/-- What a run of the loader leaves behind besides its result: the lines it
logged, and the calls of plugins' `Init` functions, each with the registry as it
was when the call was made. -/
inductive Event (F : Type) where
  | logged (line : String)
  | initCalled (pluginName : String) (registry : ToolRegistry F)

/-- The result of `LoadPlugin`: the loader after the call, the error returned and
the events of the call in order. -/
structure LoadResult (F : Type) where
  loader : Loader F
  err : Option GoError
  events : List (Event F)

/-- The result of `LoadAll`: the loader after the call, the count returned and
the events of the call in order. -/
structure LoadAllResult (F : Type) where
  loader : Loader F
  loaded : Nat
  events : List (Event F)

section Loading

variable {F : Type}

/-- The function `NewLoader`. -/
def NewLoader (pluginsDir : String) (silent : Bool) : Loader F :=
  { PluginsDir := pluginsDir, Silent := silent, Registry := NewToolRegistry }

/-- The method `Loader.log`. -/
def Loader.log (l : Loader F) (message : String) : List (Event F) :=
  if !l.Silent then [.logged ("🔌 " ++ message)] else []

/-- The method `Loader.LoadPlugin`. -/
def Loader.LoadPlugin (l : Loader F) (h : Host F) (pluginPath : String) : LoadResult F :=
  -- Load the plugin
  match h.Open pluginPath with
  | .error err =>
    ⟨l, some (.wrapped .ErrPluginLoadFailed err),
      l.log ("❌ Failed to load " ++ Base pluginPath ++ ": " ++ err)⟩
  | .ok p =>
    -- Get module info
    match p.ModuleInfo with
    | .missing =>
      ⟨l, some .ErrMissingMetadata, l.log ("⚠️  " ++ Base pluginPath ++ " missing ModuleInfo")⟩
    | .wrongType =>
      ⟨l, some .ErrMissingMetadata,
        l.log ("⚠️  " ++ Base pluginPath ++ " invalid ModuleInfo type")⟩
    | .ok moduleInfo =>
      -- Get module exports
      match p.ModuleExports with
      | .missing =>
        ⟨l, some .ErrMissingExports,
          l.log ("⚠️  " ++ Base pluginPath ++ " missing ModuleExports")⟩
      | .wrongType =>
        ⟨l, some .ErrMissingExports,
          l.log ("⚠️  " ++ Base pluginPath ++ " invalid ModuleExports type")⟩
      | .ok moduleExports =>
        -- Check compatibility
        if !isCompatible h.GOOS moduleInfo then
          ⟨l, some .ErrIncompatiblePlugin, l.log ("⚠️  " ++ Base pluginPath ++ " not compatible")⟩
        else
          -- Register the plugin
          let pluginName := TrimSuffix (Base pluginPath) ".so"
          let plugin : Plugin F :=
            { Name := pluginName, Info := moduleInfo, Exports := moduleExports,
              FilePath := pluginPath }
          let r1 := { l.Registry with Plugins := l.Registry.Plugins.set pluginName plugin }
          let r2 := { r1 with Metadata := r1.Metadata.set pluginName moduleInfo }
          -- Register tools
          let r3 := moduleExports.Tools.foldl (fun tr tool => tr.RegisterTool pluginName tool) r2
          -- Call initialization function if provided
          let initEvents : List (Event F) :=
            match p.Init with
            | .ok result =>
              .initCalled pluginName r3 ::
                (match result with
                 | some err => l.log ("⚠️  Failed to initialize " ++ pluginName ++ ": " ++ err)
                 | none => l.log ("🔧 Initialized " ++ pluginName))
            | _ => []
          ⟨{ l with Registry := r3 }, none,
            initEvents ++ l.log ("✅ Loaded " ++ moduleInfo.Name ++ " " ++ moduleInfo.Version)⟩

/-- The state of `LoadAll` while `filepath.Walk` runs: the loader, the counter
`loaded`, the events so far, and the error with which the walk stopped. -/
structure WalkState (F : Type) where
  loader : Loader F
  loaded : Nat
  events : List (Event F)
  err : Option String

/-- The walk of `LoadAll`: the function literal given to `filepath.Walk`, applied
to the steps of the walk in turn until it returns an error. -/
def walkLoop (h : Host F) : List WalkStep → Loader F → Nat → List (Event F) → WalkState F
  | [], l, loaded, events => ⟨l, loaded, events, none⟩
  | step :: rest, l, loaded, events =>
    match step.err with
    | some err => ⟨l, loaded, events, some err⟩
    | none =>
      if !step.IsDir && HasSuffix step.path ".so" then
        let r := l.LoadPlugin h step.path
        match r.err with
        | none => walkLoop h rest r.loader (loaded + 1) (events ++ r.events)
        | some _ => walkLoop h rest r.loader loaded (events ++ r.events)
      else
        walkLoop h rest l loaded events

/-- The method `Loader.LoadAll`. -/
def Loader.LoadAll (l : Loader F) (h : Host F) : LoadAllResult F :=
  if h.IsNotExist l.PluginsDir then
    ⟨l, 0, []⟩
  else
    -- Load .so files (compiled Go plugins)
    let w := walkLoop h (h.Walk l.PluginsDir) l 0 []
    let scanEvents : List (Event F) :=
      match w.err with
      | some err => l.log ("Error scanning plugins directory: " ++ err)
      | none => []
    let countEvents : List (Event F) :=
      if !l.Silent && decide (w.loaded > 0) then
        l.log ("Loaded " ++ toString w.loaded ++ " plugins")
      else []
    ⟨w.loader, w.loaded, w.events ++ scanEvents ++ countEvents⟩

/-- The method `Loader.GetTool`. -/
def Loader.GetTool (l : Loader F) (name : String) : Option (Tool F) :=
  l.Registry.GetTool name

/-- The method `Loader.ListTools`. -/
def Loader.ListTools (l : Loader F) (ρ : RangeOrder (Tool F)) : List String :=
  l.Registry.ListTools ρ

/-- The method `Loader.ListPlugins`. -/
def Loader.ListPlugins (l : Loader F) : GoMap ModuleInfo :=
  l.Registry.Metadata

/-- The method `Loader.CallTool`. -/
def Loader.CallTool [Float64 F] (l : Loader F) (ρ : Nat → RangeOrder (Value F))
    (name : String) (args : GoMap (Value F)) : Run F :=
  l.Registry.CallTool ρ name args

end Loading

/-! ## `plugins/calculator/main.go`, `example/main.go`, `loader_test.go`: data -/

/-- The `float64` values that are rational numbers, with exact arithmetic; it is
the carrier on which the examples below are evaluated, and it agrees with
`float64` on every operation they perform. -/
instance exactFloat64 : Float64 ℚ where
  zero := 0
  add := fun a b => a + b
  ofInt := fun n => n
  toInt := fun q => Int.tdiv q.num q.den

/-- The function `AddNumbers` of the calculator plugin, as a function value. -/
def AddNumbers : Func ℚ :=
  { In := [.float64, .float64]
    code := some fun
      | [.float64 a, .float64 b] => [.float64 (Float64.add a b)]
      | _ => [] }

/-- The variable `ModuleInfo` of the calculator plugin. -/
def calculatorInfo : ModuleInfo :=
  { Name := "Simple Calculator", Description := "Basic arithmetic operations",
    Author := "ld-agent Team", Version := "1.0.0", Platform := "any", PythonRequires := "",
    GoRequires := ">=1.21", Dependencies := [], EnvironmentVariables := [] }

/-- The tool `add_numbers` of the calculator plugin. -/
def addNumbersTool : Tool ℚ :=
  { Name := "add_numbers"
    Description := "Add two numbers together and return the result"
    Function := .func AddNumbers
    Parameters :=
      [("a", ⟨"float64", "First number to add", true, .nil⟩),
       ("b", ⟨"float64", "Second number to add", true, .nil⟩)]
    ReturnType := "float64" }

/-- The variable `ModuleExports` of the calculator plugin. -/
def calculatorExports : ModuleExports ℚ :=
  { Tools := [addNumbersTool], Agents := [], Resources := [], Models := [], Utilities := [] }

/-- The calculator plugin once opened; its `Init` returns nil. -/
def calculatorPlugin : PluginFile ℚ :=
  { ModuleInfo := .ok calculatorInfo, ModuleExports := .ok calculatorExports, Init := .ok none }

/-- The argument bag `args2` of `example/main.go`: `{"a": 100.0, "b": 200.0}`. -/
def args2 : GoMap (Value ℚ) :=
  (GoMap.empty.set "a" (.float64 100)).set "b" (.float64 200)

/-- The tool `testTool` of `TestToolRegistry`: `func(a, b int) int { return a + b }`. -/
def testTool : Tool ℚ :=
  { Name := "test_tool"
    Description := "A test tool"
    Function := .func
      { In := [.int, .int]
        code := some fun
          | [.int a, .int b] => [.int (a + b)]
          | _ => [] }
    Parameters :=
      [("a", ⟨"int", "First number", true, .nil⟩), ("b", ⟨"int", "Second number", true, .nil⟩)]
    ReturnType := "int" }

/-- A tool that has the name of `addNumbersTool` and the function of `testTool`. -/
def intAddNumbersTool : Tool ℚ :=
  { testTool with Name := "add_numbers" }

/-- A module that declares two tools of the same name, `addNumbersTool` first,
and has no `Init`. -/
def twicePlugin : PluginFile ℚ :=
  { ModuleInfo := .ok calculatorInfo
    ModuleExports := .ok
      { Tools := [addNumbersTool, intAddNumbersTool], Agents := [], Resources := [],
        Models := [], Utilities := [] }
    Init := .missing }

/-- A module that lacks the symbol `ModuleInfo`. -/
def brokenPlugin : PluginFile ℚ :=
  { ModuleInfo := .missing, ModuleExports := .ok calculatorExports, Init := .ok none }

/-- A Linux host with a directory `plugins` that holds `broken.so` and
`calculator.so`, and a file `more/twice.so`. -/
def exampleHost : Host ℚ :=
  { GOOS := "linux"
    Open := fun path =>
      if path = "plugins/calculator.so" then .ok calculatorPlugin
      else if path = "plugins/broken.so" then .ok brokenPlugin
      else if path = "more/twice.so" then .ok twicePlugin
      else .error "plugin.Open: realpath failed"
    IsNotExist := fun dir => dir != "plugins" && dir != "more"
    Walk := fun dir =>
      if dir = "plugins" then
        [⟨"plugins", true, none⟩, ⟨"plugins/broken.so", false, none⟩,
         ⟨"plugins/calculator.so", false, none⟩]
      else if dir = "more" then [⟨"more", true, none⟩, ⟨"more/twice.so", false, none⟩]
      else [⟨dir, false, some "lstat: no such file or directory"⟩] }

/-- A tool named `c`, for a plugin named `a.b`. -/
def cTool : Tool ℚ :=
  { addNumbersTool with Name := "c" }

/-- A tool named `b.c`, for a plugin named `a`. -/
def bcTool : Tool ℚ :=
  { testTool with Name := "b.c" }

/-! ## Notions in which the properties are stated -/

section Notions

variable {F : Type}

/-- The registry invariant of the specification: every key of `Tools` has the form
`"<plugin-name>.<tool-name>"`, and its plugin-name part is a key of `Plugins` and
of `Metadata`. -/
def RegistryInvariant (tr : ToolRegistry F) : Prop :=
  ∀ key ∈ tr.Tools.keys, ∃ pluginName tool : String,
    key = pluginName ++ "." ++ tool ∧
    pluginName ∈ tr.Plugins.keys ∧ pluginName ∈ tr.Metadata.keys

/-- The registries reachable from `NewToolRegistry` through `RegisterTool`,
`LoadPlugin` and `LoadAll`, on any host. -/
inductive ReachablePublic : ToolRegistry F → Prop where
  | new : ReachablePublic NewToolRegistry
  | registerTool (tr : ToolRegistry F) (pluginName : String) (tool : Tool F) :
      ReachablePublic tr → ReachablePublic (tr.RegisterTool pluginName tool)
  | loadPlugin (h : Host F) (l : Loader F) (pluginPath : String) :
      ReachablePublic l.Registry → ReachablePublic (l.LoadPlugin h pluginPath).loader.Registry
  | loadAll (h : Host F) (l : Loader F) :
      ReachablePublic l.Registry → ReachablePublic (l.LoadAll h).loader.Registry

/-- The registries reachable from `NewToolRegistry` through `LoadPlugin` and
`LoadAll`, on any host, and through `RegisterTool` for a plugin name that is a key
of `Plugins` and of `Metadata` at the time of the call. -/
inductive ReachableByLoading : ToolRegistry F → Prop where
  | new : ReachableByLoading NewToolRegistry
  | registerTool (tr : ToolRegistry F) (pluginName : String) (tool : Tool F) :
      pluginName ∈ tr.Plugins.keys → pluginName ∈ tr.Metadata.keys →
      ReachableByLoading tr → ReachableByLoading (tr.RegisterTool pluginName tool)
  | loadPlugin (h : Host F) (l : Loader F) (pluginPath : String) :
      ReachableByLoading l.Registry →
      ReachableByLoading (l.LoadPlugin h pluginPath).loader.Registry
  | loadAll (h : Host F) (l : Loader F) :
      ReachableByLoading l.Registry → ReachableByLoading (l.LoadAll h).loader.Registry

/-- The candidates of a `LoadAll` on directory `dir`: the paths for which it calls
`LoadPlugin`, in order.  These are the paths with suffix `.so` that are not
directories and that the walk meets before its first error; there are none when
the directory does not exist. -/
def candidates (h : Host F) (dir : String) : List String :=
  if h.IsNotExist dir then []
  else
    (((h.Walk dir).takeWhile (fun step => step.err.isNone)).filter
      (fun step => !step.IsDir && HasSuffix step.path ".so")).map WalkStep.path

/-- Whether an event is a call of a plugin's `Init`. -/
def Event.isInit : Event F → Bool
  | .initCalled _ _ => true
  | .logged _ => false

/-- The registry `LoadPlugin` builds from registry `tr` for a module at
`pluginPath` that passed all its checks. -/
def registerPlugin (tr : ToolRegistry F) (pluginPath : String) (moduleInfo : ModuleInfo)
    (moduleExports : ModuleExports F) : ToolRegistry F :=
  moduleExports.Tools.foldl
    (fun tr tool => tr.RegisterTool (TrimSuffix (Base pluginPath) ".so") tool)
    { Tools := tr.Tools
      Plugins := tr.Plugins.set (TrimSuffix (Base pluginPath) ".so")
        { Name := TrimSuffix (Base pluginPath) ".so", Info := moduleInfo,
          Exports := moduleExports, FilePath := pluginPath }
      Metadata := tr.Metadata.set (TrimSuffix (Base pluginPath) ".so") moduleInfo }

/-- The assignments to `Tools` that `LoadPlugin` makes for `pluginPath`, in order. -/
def pluginWrites (h : Host F) (pluginPath : String) : List (String × Tool F) :=
  match h.Open pluginPath with
  | .error _ => []
  | .ok p =>
    match p.ModuleInfo, p.ModuleExports with
    | .ok moduleInfo, .ok moduleExports =>
      if isCompatible h.GOOS moduleInfo then
        moduleExports.Tools.map
          (fun tool => (toolName (TrimSuffix (Base pluginPath) ".so") tool, tool))
      else []
    | _, _ => []

/-- The assignments to `Tools` that the walk of `LoadAll` makes, in order. -/
def walkWrites (h : Host F) : List WalkStep → List (String × Tool F)
  | [] => []
  | step :: rest =>
    match step.err with
    | some _ => []
    | none =>
      (if !step.IsDir && HasSuffix step.path ".so" then pluginWrites h step.path else []) ++
        walkWrites h rest

/-- The assignments to `Tools` that `LoadAll` makes on directory `dir`, in order. -/
def loadAllWrites (h : Host F) (dir : String) : List (String × Tool F) :=
  if h.IsNotExist dir then [] else walkWrites h (h.Walk dir)

end Notions

/-! ## Lemmas on strings -/

theorem hasPrefix_iff (s p : String) :
    HasPrefix s p = true ↔ ∃ rest : String, s = p ++ rest := by
  unfold HasPrefix
  constructor
  · intro h
    rw [Bool.and_eq_true, decide_eq_true_eq, beq_iff_eq] at h
    refine ⟨⟨s.data.drop p.length⟩, ?_⟩
    apply String.ext
    rw [String.data_append]
    conv_rhs => rw [← h.2]
    exact (List.take_append_drop _ _).symm
  · rintro ⟨rest, rfl⟩
    rw [Bool.and_eq_true, decide_eq_true_eq, beq_iff_eq, String.length_append,
      String.data_append]
    exact ⟨Nat.le_add_right _ _, List.take_left' rfl⟩

/-! ## C1: the compatibility gate -/

/-- C1. `isCompatible` is true exactly when the platform tag is `"any"` or equals the
host OS identifier as a string, and the Go constraint is empty or begins with
`">="`; otherwise it is false.  A descriptor with platform `"any"` and constraint
`">=1.21"` is accepted on every host, and one with platform
`"nonexistent_platform"` is rejected on every host that is not itself so named. -/
theorem C1_isCompatible_iff (GOOS : String) (info : ModuleInfo) :
    (isCompatible GOOS info = true ↔
      (info.Platform = "any" ∨ info.Platform = GOOS) ∧
      (info.GoRequires = "" ∨ ∃ rest : String, info.GoRequires = ">=" ++ rest)) ∧
    (isCompatible GOOS info = false ↔
      ¬ ((info.Platform = "any" ∨ info.Platform = GOOS) ∧
         (info.GoRequires = "" ∨ ∃ rest : String, info.GoRequires = ">=" ++ rest))) ∧
    (isCompatible GOOS { info with Platform := "any", GoRequires := ">=1.21" } = true) ∧
    (GOOS ≠ "nonexistent_platform" →
      isCompatible GOOS { info with Platform := "nonexistent_platform" } = false) := by
  have key : ∀ i : ModuleInfo, isCompatible GOOS i = true ↔
      (i.Platform = "any" ∨ i.Platform = GOOS) ∧
      (i.GoRequires = "" ∨ ∃ rest : String, i.GoRequires = ">=" ++ rest) := by
    intro i
    rw [← hasPrefix_iff]
    unfold isCompatible
    by_cases h1 : i.Platform = "any" <;> by_cases h2 : i.Platform = GOOS <;>
      by_cases h3 : i.GoRequires = "" <;>
      cases h4 : HasPrefix i.GoRequires ">=" <;> simp [h1, h2, h3, h4]
  refine ⟨key info, ?_, ?_, ?_⟩
  · rw [← key info]; simp
  · rw [key]
    exact ⟨Or.inl rfl, Or.inr ⟨"1.21", rfl⟩⟩
  · intro hne
    rw [← Bool.not_eq_true, key]
    rintro ⟨h | h, -⟩
    · exact absurd (show ("nonexistent_platform" : String) = "any" from h) (by decide)
    · exact hne h.symm

/-- C1 at a concrete host: on `"linux"`, the test's compatible descriptor is accepted
and its `"nonexistent_platform"` descriptor is rejected. -/
theorem C1_isCompatible_witness :
    isCompatible "linux"
      { Name := "Test Plugin", Description := "A test plugin", Author := "Test Author",
        Version := "1.0.0", Platform := "any", PythonRequires := "", GoRequires := ">=1.21",
        Dependencies := [], EnvironmentVariables := [] } = true ∧
    isCompatible "linux"
      { Name := "Test Plugin", Description := "A test plugin", Author := "Test Author",
        Version := "1.0.0", Platform := "nonexistent_platform", PythonRequires := "",
        GoRequires := ">=1.21", Dependencies := [], EnvironmentVariables := [] } = false :=
  ⟨((C1_isCompatible_iff "linux"
      { Name := "Test Plugin", Description := "A test plugin", Author := "Test Author",
        Version := "1.0.0", Platform := "any", PythonRequires := "", GoRequires := ">=1.21",
        Dependencies := [], EnvironmentVariables := [] }).2.2.1),
   ((C1_isCompatible_iff "linux"
      { Name := "Test Plugin", Description := "A test plugin", Author := "Test Author",
        Version := "1.0.0", Platform := "nonexistent_platform", PythonRequires := "",
        GoRequires := ">=1.21", Dependencies := [], EnvironmentVariables := [] }).2.2.2
      (by decide))⟩

/-! ## Lemmas on maps -/

namespace GoMap

variable {α : Type}

theorem get?_empty (k : String) : (GoMap.empty : GoMap α).get? k = none := rfl

theorem get?_set_self (m : GoMap α) (k : String) (v : α) : (m.set k v).get? k = some v := by
  simp [get?, set]

theorem get?_set_ne (m : GoMap α) {k k' : String} (v : α) (h : k' ≠ k) :
    (m.set k v).get? k' = m.get? k' := by
  have hk : (k == k') = false := by simpa using fun e => h e.symm
  simp only [get?, set, List.find?_cons, hk]
  congr 1
  induction m.entries with
  | nil => rfl
  | cons e es ih =>
    by_cases he : e.1 = k
    · have : e.1 ≠ k' := fun e' => h (e'.symm.trans he)
      simp [List.filter_cons, List.find?_cons, he, this, ih, hk]
    · by_cases he' : e.1 = k' <;> simp [List.filter_cons, List.find?_cons, he, he', ih, h]

theorem mem_keys_iff (m : GoMap α) (k : String) : k ∈ m.keys ↔ m.get? k ≠ none := by
  unfold keys get?
  induction m.entries with
  | nil => simp
  | cons e es ih =>
    by_cases he : e.1 = k
    · simp [List.find?_cons, he]
    · have : k ≠ e.1 := fun e' => he e'.symm
      simp [List.find?_cons, he, this, ih]

theorem get?_eq_none_iff (m : GoMap α) (k : String) : m.get? k = none ↔ k ∉ m.keys := by
  rw [mem_keys_iff]; simp

theorem mem_keys_set (m : GoMap α) (k : String) (v : α) (x : String) :
    x ∈ (m.set k v).keys ↔ x = k ∨ x ∈ m.keys := by
  by_cases h : x = k
  · subst h; simp [mem_keys_iff, get?_set_self]
  · simp [mem_keys_iff, get?_set_ne m v h, h]

theorem get?_foldl_set (ws : List (String × α)) (m : GoMap α) (k : String) :
    (ws.foldl (fun m w => m.set w.1 w.2) m).get? k =
      ((ws.reverse.find? (fun w => w.1 == k)).map Prod.snd).or (m.get? k) := by
  induction ws generalizing m with
  | nil => simp
  | cons w ws ih =>
    rw [List.foldl_cons, ih, List.reverse_cons, List.find?_append]
    cases hfind : ws.reverse.find? (fun w => w.1 == k) with
    | some x => simp
    | none =>
      by_cases hk : w.1 = k
      · subst hk; simp [get?_set_self]
      · have hk' : k ≠ w.1 := fun e => hk e.symm
        simp [List.find?_cons, hk, get?_set_ne m w.2 hk']

theorem mem_keys_foldl_set (ws : List (String × α)) (m : GoMap α) (k : String) :
    k ∈ (ws.foldl (fun m w => m.set w.1 w.2) m).keys ↔ k ∈ ws.map Prod.fst ∨ k ∈ m.keys := by
  induction ws generalizing m with
  | nil => simp
  | cons w ws ih =>
    rw [List.foldl_cons, ih, mem_keys_set, List.map_cons, List.mem_cons]
    tauto

theorem keys_range (m : GoMap α) (ρ : RangeOrder α) :
    ((m.range ρ).map Prod.fst).Perm m.keys :=
  (ρ.perm m.entries).map Prod.fst

end GoMap

section RegistryLemmas

variable {F : Type}

theorem foldl_append_singleton {β γ : Type} (f : β → γ) (l : List β) (acc : List γ) :
    l.foldl (fun tools e => tools ++ [f e]) acc = acc ++ l.map f := by
  induction l generalizing acc with
  | nil => simp
  | cons e es ih => simp [ih]

theorem listTools_eq (tr : ToolRegistry F) (ρ : RangeOrder (Tool F)) :
    tr.ListTools ρ = (tr.Tools.range ρ).map Prod.fst := by
  simp [ToolRegistry.ListTools, foldl_append_singleton]

theorem listTools_perm (tr : ToolRegistry F) (ρ : RangeOrder (Tool F)) :
    (tr.ListTools ρ).Perm tr.Tools.keys := by
  rw [listTools_eq]; exact tr.Tools.keys_range ρ

theorem listTools_nodup (tr : ToolRegistry F) (ρ : RangeOrder (Tool F)) :
    (tr.ListTools ρ).Nodup :=
  (listTools_perm tr ρ).nodup_iff.2 tr.Tools.nodup

end RegistryLemmas

/-! ## C2: the two-parameter call of the example program -/

/-- C2, evaluated on the second call of `example/main.go`.  With `add_numbers`
registered under `calculator` and the bag `{"a": 100.0, "b": 200.0}`, let the
`range` of `getArgByIndex(args, 0)` visit `a` then `b` and the `range` of
`getArgByIndex(args, 1)` visit `b` then `a`.  Both calls then return the entry of
`a`, and `CallTool` returns `AddNumbers(100, 100) = 200` with a nil error, not
`300`. -/
theorem C2_CallTool_add_numbers_mixed_orders :
    args2.range (RangeOrder.reversed) = [("a", .float64 100), ("b", .float64 200)] ∧
    args2.range (RangeOrder.stored) = [("b", .float64 200), ("a", .float64 100)] ∧
    (((NewToolRegistry : ToolRegistry ℚ).RegisterTool "calculator" addNumbersTool).CallTool
        (fun i => if i = 0 then RangeOrder.reversed else RangeOrder.stored)
        "calculator.add_numbers" args2).outcome = .returned (.float64 200) none ∧
    (Value.float64 (200 : ℚ)) ≠ .float64 300 := by
  refine ⟨rfl, rfl, ?_, ?_⟩
  · have h : (Float64.add (100 : ℚ) 100) = 200 := by
      show (100 : ℚ) + 100 = 200
      norm_num
    rw [← h]
    rfl
  · intro h
    have h' : (200 : ℚ) = 300 := by injection h
    norm_num at h'

/-! ## C3: the failures of `CallTool` -/

theorem callTool_func_no_error {F : Type} [Float64 F] (tr : ToolRegistry F)
    (ρ : Nat → RangeOrder (Value F)) (name : String) (args : GoMap (Value F))
    (tool : Tool F) (fn : Func F) (hget : tr.Tools.get? name = some tool)
    (hf : tool.Function = .func fn) (result : Value F) (e : GoError) :
    (tr.CallTool ρ name args).outcome ≠ .returned result (some e) := by
  intro h
  unfold ToolRegistry.CallTool at h
  rw [hget] at h
  simp only [hf] at h
  repeat' split at h
  all_goals simp at h

theorem callTool_value {F : Type} [Float64 F] (tr : ToolRegistry F)
    (ρ : Nat → RangeOrder (Value F)) (name : String) (args : GoMap (Value F))
    (tool : Tool F) (v : Value F) (hget : tr.Tools.get? name = some tool)
    (hf : tool.Function = .value v) :
    tr.CallTool ρ name args = ⟨.returned .nil (some .ErrInvalidTool), []⟩ := by
  unfold ToolRegistry.CallTool
  rw [hget]
  simp only [hf]

/-- C3. `CallTool` returns `(nil, ErrToolNotFound)` and invokes nothing when the
name is not a key of `Tools`, and returns the error `ErrToolNotFound` in no other
case; it returns `(nil, ErrInvalidTool)` and invokes nothing when the name is
registered and the kind of the tool's `Function` is not `Func` (the nil interface
has kind `Invalid`; a nil value of a function type has kind `Func`), and returns
the error `ErrInvalidTool` in no other case. -/
theorem C3_CallTool_failure_classes {F : Type} [Float64 F] (tr : ToolRegistry F)
    (ρ : Nat → RangeOrder (Value F)) (name : String) (args : GoMap (Value F)) :
    (name ∉ tr.Tools.keys →
      tr.CallTool ρ name args = ⟨.returned .nil (some .ErrToolNotFound), []⟩) ∧
    (∀ result, (tr.CallTool ρ name args).outcome = .returned result (some .ErrToolNotFound) →
      name ∉ tr.Tools.keys) ∧
    (∀ tool, tr.GetTool name = some tool → tool.Function.Kind ≠ Kind.Func →
      tr.CallTool ρ name args = ⟨.returned .nil (some .ErrInvalidTool), []⟩) ∧
    (∀ result, (tr.CallTool ρ name args).outcome = .returned result (some .ErrInvalidTool) →
      ∃ tool, tr.GetTool name = some tool ∧ tool.Function.Kind ≠ Kind.Func) := by
  cases hget : tr.Tools.get? name with
  | none =>
    have hk := (tr.Tools.get?_eq_none_iff name).1 hget
    have hrun : tr.CallTool ρ name args = ⟨.returned .nil (some .ErrToolNotFound), []⟩ := by
      unfold ToolRegistry.CallTool; rw [hget]
    refine ⟨fun _ => hrun, fun _ _ => hk, ?_, ?_⟩
    · intro tool ht
      rw [ToolRegistry.GetTool, hget] at ht
      cases ht
    · intro result h
      rw [hrun] at h
      cases h
  | some tool =>
    have hk : name ∈ tr.Tools.keys := by
      rw [GoMap.mem_keys_iff, hget]; simp
    cases hf : tool.Function with
    | value v =>
      have hrun := callTool_value tr ρ name args tool v hget hf
      have hkind : tool.Function.Kind ≠ Kind.Func := by
        rw [hf]; cases v <;> simp [Any.Kind]
      refine ⟨fun h => absurd hk h, ?_, fun _ _ _ => hrun, fun _ _ => ⟨tool, hget, hkind⟩⟩
      intro result h
      rw [hrun] at h
      cases h
    | func fn =>
      have hno := callTool_func_no_error tr ρ name args tool fn hget hf
      refine ⟨fun h => absurd hk h, fun result h => absurd h (hno result _), ?_,
        fun result h => absurd h (hno result _)⟩
      intro tool' ht hkind
      rw [ToolRegistry.GetTool, hget] at ht
      cases ht
      rw [hf] at hkind
      exact absurd rfl hkind

/-! ## C4: a nil value in the argument bag -/

/-- C4, evaluated on a bag with a nil value.  With `add_numbers` registered under
`calculator`, `CallTool("calculator.add_numbers", {"a": nil})` panics in
`arg.Type()`, whatever the order of the `range` statements, and the function is
not invoked: the first parameter does not receive its zero value.  For the bag
`{"a": "x"}`, whose value is a string and so not convertible to `float64`, the
function is invoked once with the zero value for both parameters. -/
theorem C4_CallTool_nil_value_panics (ρ : Nat → RangeOrder (Value ℚ)) :
    ((NewToolRegistry : ToolRegistry ℚ).RegisterTool "calculator" addNumbersTool).CallTool ρ
        "calculator.add_numbers" (GoMap.empty.set "a" .nil) =
      ⟨.panicked "reflect: call of reflect.Value.Type on zero Value", []⟩ ∧
    (((NewToolRegistry : ToolRegistry ℚ).RegisterTool "calculator" addNumbersTool).CallTool
        (fun _ => RangeOrder.stored) "calculator.add_numbers"
        (GoMap.empty.set "a" (.string "x"))).invoked =
      [[Zero .float64, Zero .float64]] := by
  refine ⟨?_, rfl⟩
  have hr : (GoMap.empty.set "a" (Value.nil : Value ℚ)).range (ρ 0) = [("a", .nil)] :=
    List.perm_singleton.1 ((ρ 0).perm _)
  have hg : getArgByIndex (ρ 0) (GoMap.empty.set "a" (Value.nil : Value ℚ)) 0 = .nil := by
    unfold getArgByIndex
    rw [hr]
    rfl
  have hb : buildCallArgs ρ (GoMap.empty.set "a" (Value.nil : Value ℚ)) AddNumbers.In 0 [] =
      .error "reflect: call of reflect.Value.Type on zero Value" := by
    show buildCallArgs ρ _ [GoType.float64, GoType.float64] 0 [] = _
    unfold buildCallArgs
    rw [if_pos (by decide)]
    simp only [hg]
    rfl
  have hget : ((NewToolRegistry : ToolRegistry ℚ).RegisterTool "calculator"
      addNumbersTool).Tools.get? "calculator.add_numbers" = some addNumbersTool := rfl
  unfold ToolRegistry.CallTool
  rw [hget]
  simp only [addNumbersTool]
  rw [hb]

/-! ## C5: registration, lookup and listing -/

/-- C5. After `RegisterTool(p, t)`, `GetTool(p + "." + t.Name)` returns `t`,
whatever the key held before; `ListTools` contains that string exactly once;
`GetTool` of every other name is unchanged.  `ListTools` of `NewToolRegistry()` is
empty, and after one registration into it `ListTools` is exactly the qualified
name and `GetTool` finds a tool under that name only. -/
theorem C5_RegisterTool_GetTool_ListTools {F : Type} (tr : ToolRegistry F) (p : String)
    (t : Tool F) (ρ ρ' : RangeOrder (Tool F)) :
    (tr.RegisterTool p t).GetTool (p ++ "." ++ t.Name) = some t ∧
    ((tr.RegisterTool p t).ListTools ρ).count (p ++ "." ++ t.Name) = 1 ∧
    (∀ name, name ≠ p ++ "." ++ t.Name → (tr.RegisterTool p t).GetTool name = tr.GetTool name) ∧
    (NewToolRegistry : ToolRegistry F).ListTools ρ' = [] ∧
    ((NewToolRegistry : ToolRegistry F).RegisterTool p t).ListTools ρ = [p ++ "." ++ t.Name] ∧
    (∀ name, ((NewToolRegistry : ToolRegistry F).RegisterTool p t).GetTool name ≠ none ↔
      name = p ++ "." ++ t.Name) := by
  refine ⟨?_, ?_, ?_, ?_, ?_, ?_⟩
  · exact GoMap.get?_set_self _ _ _
  · apply List.count_eq_one_of_mem (listTools_nodup _ ρ)
    rw [(listTools_perm _ ρ).mem_iff]
    exact (GoMap.mem_keys_set _ _ _ _).2 (Or.inl rfl)
  · intro name hne
    exact GoMap.get?_set_ne _ _ hne
  · rw [listTools_eq]
    have : (NewToolRegistry : ToolRegistry F).Tools.range ρ' = [] :=
      List.perm_nil.1 (ρ'.perm _)
    rw [this]; rfl
  · rw [listTools_eq]
    have : ((NewToolRegistry : ToolRegistry F).RegisterTool p t).Tools.range ρ =
        [(p ++ "." ++ t.Name, t)] := List.perm_singleton.1 (ρ.perm _)
    rw [this]; rfl
  · intro name
    by_cases h : name = p ++ "." ++ t.Name
    · subst h
      simp [ToolRegistry.GetTool, ToolRegistry.RegisterTool, toolName, GoMap.get?_set_self]
    · have := GoMap.get?_set_ne (NewToolRegistry : ToolRegistry F).Tools t h
      simp only [ToolRegistry.GetTool, ToolRegistry.RegisterTool, toolName, this]
      simp [NewToolRegistry, GoMap.get?_empty, h]

/-! ## Lemmas on registering the tools of a module -/

section RegisterLemmas

variable {F : Type}

theorem toolName_eq (p : String) (t : Tool F) : toolName p t = p ++ "." ++ t.Name := rfl

theorem qualified_inj (p a b : String) : p ++ "." ++ a = p ++ "." ++ b ↔ a = b := by
  constructor
  · intro h
    have h' := congrArg String.data h
    simp only [String.data_append, List.append_assoc] at h'
    exact String.ext (List.append_cancel_left (List.append_cancel_left h'))
  · rintro rfl; rfl

theorem foldl_registerTool (tools : List (Tool F)) (tr : ToolRegistry F) (p : String) :
    (tools.foldl (fun tr tool => tr.RegisterTool p tool) tr).Tools =
        (tools.map (fun t => (toolName p t, t))).foldl (fun m w => m.set w.1 w.2) tr.Tools ∧
    (tools.foldl (fun tr tool => tr.RegisterTool p tool) tr).Plugins = tr.Plugins ∧
    (tools.foldl (fun tr tool => tr.RegisterTool p tool) tr).Metadata = tr.Metadata := by
  induction tools generalizing tr with
  | nil => exact ⟨rfl, rfl, rfl⟩
  | cons t ts ih =>
    simp only [List.foldl_cons, List.map_cons]
    exact ih (tr.RegisterTool p t)

theorem registerPlugin_tools (tr : ToolRegistry F) (path : String) (info : ModuleInfo)
    (exports : ModuleExports F) :
    (registerPlugin tr path info exports).Tools =
      (exports.Tools.map (fun t => (toolName (TrimSuffix (Base path) ".so") t, t))).foldl
        (fun m w => m.set w.1 w.2) tr.Tools :=
  (foldl_registerTool _ _ _).1

theorem registerPlugin_plugins (tr : ToolRegistry F) (path : String) (info : ModuleInfo)
    (exports : ModuleExports F) :
    (registerPlugin tr path info exports).Plugins =
      tr.Plugins.set (TrimSuffix (Base path) ".so")
        { Name := TrimSuffix (Base path) ".so", Info := info, Exports := exports,
          FilePath := path } :=
  (foldl_registerTool _ _ _).2.1

theorem registerPlugin_metadata (tr : ToolRegistry F) (path : String) (info : ModuleInfo)
    (exports : ModuleExports F) :
    (registerPlugin tr path info exports).Metadata =
      tr.Metadata.set (TrimSuffix (Base path) ".so") info :=
  (foldl_registerTool _ _ _).2.2

theorem registerPlugin_getTool (tr : ToolRegistry F) (path : String) (info : ModuleInfo)
    (exports : ModuleExports F) (n : String) :
    (registerPlugin tr path info exports).GetTool (TrimSuffix (Base path) ".so" ++ "." ++ n) =
      (exports.Tools.reverse.find? (fun u => u.Name == n)).or
        (tr.GetTool (TrimSuffix (Base path) ".so" ++ "." ++ n)) := by
  unfold ToolRegistry.GetTool
  rw [registerPlugin_tools, GoMap.get?_foldl_set, ← List.map_reverse, List.find?_map,
    Option.map_map]
  have hfun : ((fun w : String × Tool F => w.1 == TrimSuffix (Base path) ".so" ++ "." ++ n) ∘
      fun t : Tool F => (toolName (TrimSuffix (Base path) ".so") t, t)) =
      fun u => u.Name == n := by
    funext u
    simp only [Function.comp, toolName_eq]
    by_cases hn : u.Name = n
    · simp [hn]
    · have : ¬ (TrimSuffix (Base path) ".so" ++ "." ++ u.Name =
          TrimSuffix (Base path) ".so" ++ "." ++ n) := fun e => hn ((qualified_inj _ _ _).1 e)
      simp [hn, this]
  rw [hfun]
  cases exports.Tools.reverse.find? (fun u => u.Name == n) <;> simp

theorem find?_name_of_nodup (l : List (Tool F)) (hl : (l.map Tool.Name).Nodup) (t : Tool F)
    (ht : t ∈ l) : l.find? (fun u => u.Name == t.Name) = some t := by
  induction l with
  | nil => cases ht
  | cons a as ih =>
    rw [List.map_cons, List.nodup_cons] at hl
    rcases List.mem_cons.1 ht with rfl | hmem
    · simp
    · have hne : a.Name ≠ t.Name := fun e => hl.1 (e ▸ List.mem_map_of_mem Tool.Name hmem)
      simp [List.find?_cons, hne, ih hl.2 hmem]

end RegisterLemmas

/-! ## Lemmas on `LoadPlugin` -/

section LoadPluginLemmas

variable {F : Type}

theorem loadPlugin_of_ok (h : Host F) (l : Loader F) (path : String) (p : PluginFile F)
    (info : ModuleInfo) (exports : ModuleExports F) (hopen : h.Open path = .ok p)
    (hinfo : p.ModuleInfo = .ok info) (hexp : p.ModuleExports = .ok exports)
    (hcompat : isCompatible h.GOOS info = true) :
    (l.LoadPlugin h path).err = none ∧
    (l.LoadPlugin h path).loader =
      { l with Registry := registerPlugin l.Registry path info exports } ∧
    (l.LoadPlugin h path).events =
      (match p.Init with
        | .ok result =>
          Event.initCalled (TrimSuffix (Base path) ".so")
              (registerPlugin l.Registry path info exports) ::
            (match result with
             | some err =>
               l.log ("⚠️  Failed to initialize " ++ TrimSuffix (Base path) ".so" ++ ": " ++ err)
             | none => l.log ("🔧 Initialized " ++ TrimSuffix (Base path) ".so"))
        | _ => []) ++ l.log ("✅ Loaded " ++ info.Name ++ " " ++ info.Version) := by
  unfold Loader.LoadPlugin
  simp only [hopen, hinfo, hexp, hcompat]
  exact ⟨rfl, rfl, rfl⟩

theorem loadPlugin_cases (h : Host F) (l : Loader F) (path : String) :
    ((l.LoadPlugin h path).err ≠ none ∧ (l.LoadPlugin h path).loader = l ∧
      pluginWrites h path = []) ∨
    (∃ p info exports, h.Open path = .ok p ∧ p.ModuleInfo = .ok info ∧
      p.ModuleExports = .ok exports ∧ isCompatible h.GOOS info = true) := by
  cases hopen : h.Open path with
  | error e => left; simp [Loader.LoadPlugin, pluginWrites, hopen]
  | ok p =>
    cases hinfo : p.ModuleInfo with
    | missing => left; simp [Loader.LoadPlugin, pluginWrites, hopen, hinfo]
    | wrongType => left; simp [Loader.LoadPlugin, pluginWrites, hopen, hinfo]
    | ok info =>
      cases hexp : p.ModuleExports with
      | missing => left; simp [Loader.LoadPlugin, pluginWrites, hopen, hinfo, hexp]
      | wrongType => left; simp [Loader.LoadPlugin, pluginWrites, hopen, hinfo, hexp]
      | ok exports =>
        cases hc : isCompatible h.GOOS info with
        | false => left; simp [Loader.LoadPlugin, pluginWrites, hopen, hinfo, hexp, hc]
        | true => right; exact ⟨p, info, exports, rfl, hinfo, hexp, hc⟩

end LoadPluginLemmas

/-! ## C6: the registry invariant -/

section InvariantLemmas

variable {F : Type}

theorem loadPlugin_preserves_invariant (h : Host F) (l : Loader F) (path : String)
    (hinv : RegistryInvariant l.Registry) :
    RegistryInvariant (l.LoadPlugin h path).loader.Registry := by
  rcases loadPlugin_cases h l path with ⟨-, hl, -⟩ | ⟨p, info, exports, hopen, hinfo, hexp, hc⟩
  · rw [hl]; exact hinv
  · have hloader := (loadPlugin_of_ok h l path p info exports hopen hinfo hexp hc).2.1
    have hreg : (l.LoadPlugin h path).loader.Registry =
        registerPlugin l.Registry path info exports := by rw [hloader]
    intro key hkey
    rw [hreg, registerPlugin_tools, GoMap.mem_keys_foldl_set] at hkey
    rw [hreg, registerPlugin_plugins, registerPlugin_metadata]
    rcases hkey with hnew | hold
    · obtain ⟨w, hw, rfl⟩ := List.mem_map.1 hnew
      obtain ⟨t, -, rfl⟩ := List.mem_map.1 hw
      exact ⟨TrimSuffix (Base path) ".so", t.Name, rfl,
        (GoMap.mem_keys_set _ _ _ _).2 (Or.inl rfl), (GoMap.mem_keys_set _ _ _ _).2 (Or.inl rfl)⟩
    · obtain ⟨pn, tn, hk, hp, hm⟩ := hinv key hold
      exact ⟨pn, tn, hk, (GoMap.mem_keys_set _ _ _ _).2 (Or.inr hp),
        (GoMap.mem_keys_set _ _ _ _).2 (Or.inr hm)⟩

theorem walkLoop_preserves (h : Host F) (P : ToolRegistry F → Prop)
    (hP : ∀ (l : Loader F) (path : String), P l.Registry →
      P (l.LoadPlugin h path).loader.Registry)
    (steps : List WalkStep) (l : Loader F) (n : Nat) (ev : List (Event F))
    (hl : P l.Registry) : P (walkLoop h steps l n ev).loader.Registry := by
  induction steps generalizing l n ev with
  | nil => exact hl
  | cons step rest ih =>
    unfold walkLoop
    split
    · exact hl
    · split
      · dsimp only
        split
        · exact ih _ _ _ (hP l step.path hl)
        · exact ih _ _ _ (hP l step.path hl)
      · exact ih _ _ _ hl

theorem loadAll_preserves (h : Host F) (P : ToolRegistry F → Prop)
    (hP : ∀ (l : Loader F) (path : String), P l.Registry →
      P (l.LoadPlugin h path).loader.Registry)
    (l : Loader F) (hl : P l.Registry) : P (l.LoadAll h).loader.Registry := by
  unfold Loader.LoadAll
  split
  · exact hl
  · exact walkLoop_preserves h P hP _ l 0 [] hl

end InvariantLemmas

/-- C6 fails as stated.  `RegisterTool` is a public operation, and the registry
of `TestToolRegistry`, `NewToolRegistry()` after
`RegisterTool("test_plugin", testTool)`, has the key `"test_plugin.test_tool"` in
`Tools` while `Plugins` and `Metadata` are empty. -/
theorem C6_RegisterTool_breaks_invariant :
    ReachablePublic ((NewToolRegistry : ToolRegistry ℚ).RegisterTool "test_plugin" testTool) ∧
    ((NewToolRegistry : ToolRegistry ℚ).RegisterTool "test_plugin" testTool).Tools.keys =
      ["test_plugin.test_tool"] ∧
    ((NewToolRegistry : ToolRegistry ℚ).RegisterTool "test_plugin" testTool).Plugins.keys = [] ∧
    ((NewToolRegistry : ToolRegistry ℚ).RegisterTool "test_plugin" testTool).Metadata.keys = [] ∧
    ¬ RegistryInvariant
        ((NewToolRegistry : ToolRegistry ℚ).RegisterTool "test_plugin" testTool) := by
  refine ⟨ReachablePublic.registerTool _ _ _ ReachablePublic.new, rfl, rfl, rfl, ?_⟩
  intro hinv
  obtain ⟨pn, tn, -, hp, -⟩ := hinv "test_plugin.test_tool" (List.mem_singleton.2 rfl)
  cases hp

/-- C6, amended.  In every registry reachable from `NewToolRegistry` through
`LoadPlugin`, `LoadAll`, and `RegisterTool` calls whose plugin name is a key of
`Plugins` and of `Metadata` when they are made, every key of `Tools` is
`p + "." + n` for a string `n` and a string `p` that is a key of `Plugins` and of
`Metadata`. -/
theorem C6_invariant_of_loading {F : Type} (tr : ToolRegistry F)
    (hreach : ReachableByLoading tr) : RegistryInvariant tr := by
  induction hreach with
  | new =>
    intro key hkey
    cases hkey
  | registerTool tr pn tool hp hm _ ih =>
    intro key hkey
    rcases (GoMap.mem_keys_set _ _ _ _).1 hkey with rfl | hold
    · exact ⟨pn, tool.Name, rfl, hp, hm⟩
    · exact ih key hold
  | loadPlugin h l path _ ih => exact loadPlugin_preserves_invariant h l path ih
  | loadAll h l _ ih =>
    exact loadAll_preserves h RegistryInvariant
      (fun l path hl => loadPlugin_preserves_invariant h l path hl) l ih

/-- C6, amended, at the registry of a loader that ran `LoadAll` on the directory
`plugins` of `exampleHost` and then registered `testTool` under the loaded plugin
`calculator`: it is reachable in the amended sense, so the invariant holds of it. -/
theorem C6_invariant_of_loading_witness :
    ReachableByLoading
      (((NewLoader "plugins" true).LoadAll exampleHost).loader.Registry.RegisterTool
        "calculator" testTool) ∧
    RegistryInvariant
      (((NewLoader "plugins" true).LoadAll exampleHost).loader.Registry.RegisterTool
        "calculator" testTool) :=
  have hreach : ReachableByLoading
      (((NewLoader "plugins" true).LoadAll exampleHost).loader.Registry.RegisterTool
        "calculator" testTool) :=
    ReachableByLoading.registerTool _ "calculator" testTool (List.mem_singleton.2 rfl)
      (List.mem_singleton.2 rfl)
      (ReachableByLoading.loadAll exampleHost (NewLoader "plugins" true)
        ReachableByLoading.new)
  ⟨hreach, C6_invariant_of_loading _ hreach⟩

/-! ## C7: qualified names -/

theorem append_sep_inj {a : Char} {l₁ l₂ r₁ r₂ : List Char} (h₁ : a ∉ l₁) (h₂ : a ∉ l₂)
    (h : l₁ ++ a :: r₁ = l₂ ++ a :: r₂) : l₁ = l₂ ∧ r₁ = r₂ := by
  induction l₁ generalizing l₂ with
  | nil =>
    cases l₂ with
    | nil => exact ⟨rfl, by simpa using h⟩
    | cons d l₂ =>
      simp only [List.nil_append, List.cons_append, List.cons.injEq] at h
      exact absurd (List.mem_cons.2 (Or.inl h.1)) h₂
  | cons c l₁ ih =>
    cases l₂ with
    | nil =>
      simp only [List.nil_append, List.cons_append, List.cons.injEq] at h
      exact absurd (List.mem_cons.2 (Or.inl h.1.symm)) h₁
    | cons d l₂ =>
      simp only [List.cons_append, List.cons.injEq] at h
      obtain ⟨hl, hr⟩ := ih (fun hm => h₁ (List.mem_cons_of_mem _ hm))
        (fun hm => h₂ (List.mem_cons_of_mem _ hm)) h.2
      exact ⟨by rw [h.1, hl], hr⟩

theorem qualified_data (p n : String) : (p ++ "." ++ n).data = p.data ++ '.' :: n.data := by
  simp only [String.data_append, List.append_assoc]
  rfl

theorem qualified_eq_of_no_dot {p₁ p₂ n₁ n₂ : String}
    (hdot : ('.' ∉ p₁.data ∧ '.' ∉ p₂.data) ∨ ('.' ∉ n₁.data ∧ '.' ∉ n₂.data))
    (h : p₁ ++ "." ++ n₁ = p₂ ++ "." ++ n₂) : p₁ = p₂ ∧ n₁ = n₂ := by
  have hd : p₁.data ++ '.' :: n₁.data = p₂.data ++ '.' :: n₂.data := by
    rw [← qualified_data, ← qualified_data, h]
  rcases hdot with ⟨h₁, h₂⟩ | ⟨h₁, h₂⟩
  · obtain ⟨hp, hn⟩ := append_sep_inj h₁ h₂ hd
    exact ⟨String.ext hp, String.ext hn⟩
  · have hr := congrArg List.reverse hd
    simp only [List.reverse_append, List.reverse_cons, List.append_assoc,
      List.singleton_append] at hr
    obtain ⟨hn, hp⟩ := append_sep_inj (fun hm => h₁ (List.mem_reverse.1 hm))
      (fun hm => h₂ (List.mem_reverse.1 hm)) hr
    exact ⟨String.ext (List.reverse_injective hp), String.ext (List.reverse_injective hn)⟩

/-- C7 fails as stated.  The pairs (plugin `a.b`, tool `c`) and (plugin `a`, tool
`b.c`) differ in both components and `RegisterTool` stores both under the key
`"a.b.c"`: after registering the first and then the second, `GetTool` returns the
second tool under the key of the first, and `ListTools` has one entry. -/
theorem C7_qualified_name_collision :
    ("a.b" : String) ≠ "a" ∧ cTool.Name ≠ bcTool.Name ∧
    toolName "a.b" cTool = "a.b.c" ∧ toolName "a" bcTool = "a.b.c" ∧
    (((NewToolRegistry : ToolRegistry ℚ).RegisterTool "a.b" cTool).RegisterTool "a"
        bcTool).GetTool (toolName "a.b" cTool) = some bcTool ∧
    (((NewToolRegistry : ToolRegistry ℚ).RegisterTool "a.b" cTool).RegisterTool "a"
        bcTool).GetTool (toolName "a.b" cTool) ≠ some cTool ∧
    (((NewToolRegistry : ToolRegistry ℚ).RegisterTool "a.b" cTool).RegisterTool "a"
        bcTool).ListTools RangeOrder.stored = ["a.b.c"] := by
  refine ⟨by decide, by decide, by decide, by decide, rfl, ?_, rfl⟩
  intro h
  have h' : bcTool.Name = cTool.Name :=
    congrArg Tool.Name (Option.some.inj (h : some bcTool = some cTool))
  exact absurd h' (by decide)

/-- C7, amended.  Two (plugin name, tool name) pairs that differ in a component
are stored by `RegisterTool` under different keys, and registering one neither
overwrites nor hides the other, when neither plugin name contains `'.'` or
neither tool name contains `'.'`. -/
theorem C7_qualified_name_unique {F : Type} (tr : ToolRegistry F) (p₁ p₂ : String)
    (t₁ t₂ : Tool F) (hdiff : p₁ ≠ p₂ ∨ t₁.Name ≠ t₂.Name)
    (hdot : ('.' ∉ p₁.data ∧ '.' ∉ p₂.data) ∨ ('.' ∉ t₁.Name.data ∧ '.' ∉ t₂.Name.data)) :
    toolName p₁ t₁ ≠ toolName p₂ t₂ ∧
    (tr.RegisterTool p₁ t₁).GetTool (toolName p₂ t₂) = tr.GetTool (toolName p₂ t₂) ∧
    ((tr.RegisterTool p₂ t₂).RegisterTool p₁ t₁).GetTool (toolName p₂ t₂) = some t₂ ∧
    ((tr.RegisterTool p₂ t₂).RegisterTool p₁ t₁).GetTool (toolName p₁ t₁) = some t₁ := by
  have hne : toolName p₁ t₁ ≠ toolName p₂ t₂ := by
    intro h
    obtain ⟨hp, hn⟩ := qualified_eq_of_no_dot hdot h
    rcases hdiff with hd | hd
    · exact hd hp
    · exact hd hn
  refine ⟨hne, GoMap.get?_set_ne _ _ hne.symm, ?_, GoMap.get?_set_self _ _ _⟩
  have : ((tr.RegisterTool p₂ t₂).RegisterTool p₁ t₁).GetTool (toolName p₂ t₂) =
      (tr.RegisterTool p₂ t₂).GetTool (toolName p₂ t₂) := GoMap.get?_set_ne _ _ hne.symm
  rw [this]
  exact GoMap.get?_set_self _ _ _

/-- C7, amended, at the tools of the calculator plugin and of the registry test:
`calculator.add_numbers` and `test_plugin.test_tool` are different keys, and both
tools are found after registering both. -/
theorem C7_qualified_name_unique_witness :
    toolName "calculator" addNumbersTool ≠ toolName "test_plugin" testTool ∧
    (((NewToolRegistry : ToolRegistry ℚ).RegisterTool "test_plugin" testTool).RegisterTool
        "calculator" addNumbersTool).GetTool (toolName "test_plugin" testTool) =
      some testTool :=
  have hthm := C7_qualified_name_unique (NewToolRegistry : ToolRegistry ℚ) "calculator"
    "test_plugin" addNumbersTool testTool (Or.inl (by decide))
    (Or.inl ⟨by decide, by decide⟩)
  ⟨hthm.1, hthm.2.2.1⟩

/-! ## C8: failed candidates -/

section WalkLemmas

variable {F : Type}

theorem loadPlugin_err_indep (h : Host F) (l l' : Loader F) (path : String) :
    (l.LoadPlugin h path).err = (l'.LoadPlugin h path).err := by
  cases hopen : h.Open path with
  | error e => simp [Loader.LoadPlugin, hopen]
  | ok p =>
    cases hinfo : p.ModuleInfo with
    | missing => simp [Loader.LoadPlugin, hopen, hinfo]
    | wrongType => simp [Loader.LoadPlugin, hopen, hinfo]
    | ok info =>
      cases hexp : p.ModuleExports with
      | missing => simp [Loader.LoadPlugin, hopen, hinfo, hexp]
      | wrongType => simp [Loader.LoadPlugin, hopen, hinfo, hexp]
      | ok exports =>
        cases hc : isCompatible h.GOOS info with
        | false => simp [Loader.LoadPlugin, hopen, hinfo, hexp, hc]
        | true =>
          rw [(loadPlugin_of_ok h l path p info exports hopen hinfo hexp hc).1,
            (loadPlugin_of_ok h l' path p info exports hopen hinfo hexp hc).1]

theorem loadPlugin_err_unchanged (h : Host F) (l : Loader F) (path : String)
    (herr : (l.LoadPlugin h path).err ≠ none) : (l.LoadPlugin h path).loader = l := by
  rcases loadPlugin_cases h l path with ⟨-, hl, -⟩ | ⟨p, info, exports, hopen, hinfo, hexp, hc⟩
  · exact hl
  · exact absurd (loadPlugin_of_ok h l path p info exports hopen hinfo hexp hc).1 herr

theorem loadPlugin_metadata_mono (h : Host F) (l : Loader F) (path k : String)
    (hk : k ∈ l.Registry.Metadata.keys) :
    k ∈ (l.LoadPlugin h path).loader.Registry.Metadata.keys := by
  rcases loadPlugin_cases h l path with ⟨-, hl, -⟩ | ⟨p, info, exports, hopen, hinfo, hexp, hc⟩
  · rw [hl]; exact hk
  · rw [(loadPlugin_of_ok h l path p info exports hopen hinfo hexp hc).2.1]
    show k ∈ (registerPlugin l.Registry path info exports).Metadata.keys
    rw [registerPlugin_metadata]
    exact (GoMap.mem_keys_set _ _ _ _).2 (Or.inr hk)

theorem loadPlugin_metadata_mem (h : Host F) (l : Loader F) (path : String)
    (herr : (l.LoadPlugin h path).err = none) :
    TrimSuffix (Base path) ".so" ∈ (l.LoadPlugin h path).loader.Registry.Metadata.keys := by
  rcases loadPlugin_cases h l path with ⟨hne, -, -⟩ | ⟨p, info, exports, hopen, hinfo, hexp, hc⟩
  · exact absurd herr hne
  · rw [(loadPlugin_of_ok h l path p info exports hopen hinfo hexp hc).2.1]
    show _ ∈ (registerPlugin l.Registry path info exports).Metadata.keys
    rw [registerPlugin_metadata]
    exact (GoMap.mem_keys_set _ _ _ _).2 (Or.inl rfl)

theorem walkLoop_loaded (h : Host F) (l₀ : Loader F) (steps : List WalkStep) (l : Loader F)
    (n : Nat) (ev : List (Event F)) :
    (walkLoop h steps l n ev).loaded =
      n + ((((steps.takeWhile (fun step => step.err.isNone)).filter
        (fun step => !step.IsDir && HasSuffix step.path ".so")).map WalkStep.path).filter
          (fun c => (l₀.LoadPlugin h c).err.isNone)).length := by
  induction steps generalizing l n ev with
  | nil => simp [walkLoop]
  | cons step rest ih =>
    unfold walkLoop
    cases herr : step.err with
    | some e => simp [List.takeWhile_cons, herr]
    | none =>
      simp only [List.takeWhile_cons, herr, Option.isNone_none, if_true]
      by_cases hcand : (!step.IsDir && HasSuffix step.path ".so") = true
      · simp only [hcand, if_true, List.filter_cons, List.map_cons]
        have hind := loadPlugin_err_indep h l l₀ step.path
        cases hl : (l.LoadPlugin h step.path).err with
        | none =>
          rw [hl] at hind
          simp only [← hind, Option.isNone_none, if_true, List.length_cons, ih]
          omega
        | some e =>
          rw [hl] at hind
          simp only [← hind, Option.isNone_some, ih]
          simp
      · rw [Bool.not_eq_true] at hcand
        simp only [hcand, List.filter_cons, Bool.false_eq_true, if_false]
        exact ih _ _ _

theorem walkLoop_metadata_mem (h : Host F) (l₀ : Loader F) (steps : List WalkStep)
    (l : Loader F) (n : Nat) (ev : List (Event F)) (c : String)
    (hc : c ∈ ((steps.takeWhile (fun step => step.err.isNone)).filter
        (fun step => !step.IsDir && HasSuffix step.path ".so")).map WalkStep.path)
    (hok : (l₀.LoadPlugin h c).err = none) :
    TrimSuffix (Base c) ".so" ∈ (walkLoop h steps l n ev).loader.Registry.Metadata.keys := by
  induction steps generalizing l n ev with
  | nil => simp at hc
  | cons step rest ih =>
    unfold walkLoop
    cases herr : step.err with
    | some e => simp [List.takeWhile_cons, herr] at hc
    | none =>
      simp only [List.takeWhile_cons, herr, Option.isNone_none, if_true] at hc
      by_cases hcand : (!step.IsDir && HasSuffix step.path ".so") = true
      · simp only [hcand, if_true, List.filter_cons, List.map_cons, List.mem_cons] at hc
        have hrest : ∀ l' n' ev', TrimSuffix (Base c) ".so" ∈ l'.Registry.Metadata.keys →
            TrimSuffix (Base c) ".so" ∈
              (walkLoop h rest l' n' ev').loader.Registry.Metadata.keys :=
          fun l' n' ev' hmem => walkLoop_preserves h
            (fun tr => TrimSuffix (Base c) ".so" ∈ tr.Metadata.keys)
            (fun l path hl => loadPlugin_metadata_mono h l path _ hl) rest l' n' ev' hmem
        simp only [hcand, if_true]
        rcases hc with rfl | hc
        · have hok' : (l.LoadPlugin h step.path).err = none := by
            rw [loadPlugin_err_indep h l l₀]; exact hok
          have hmem := loadPlugin_metadata_mem h l step.path hok'
          split
          · exact hrest _ _ _ hmem
          · exact hrest _ _ _ hmem
        · split
          · exact ih _ _ _ hc
          · exact ih _ _ _ hc
      · rw [Bool.not_eq_true] at hcand
        simp only [hcand, List.filter_cons, Bool.false_eq_true, if_false] at hc
        simp only [hcand, Bool.false_eq_true, if_false]
        exact ih _ _ _ hc

theorem loadAll_loaded (h : Host F) (l l₀ : Loader F) :
    (l.LoadAll h).loaded =
      ((candidates h l.PluginsDir).filter (fun c => (l₀.LoadPlugin h c).err.isNone)).length := by
  unfold Loader.LoadAll candidates
  split
  · rfl
  · simp only [walkLoop_loaded h l₀, Nat.zero_add]

theorem loadPlugin_tools (h : Host F) (l : Loader F) (path : String) :
    (l.LoadPlugin h path).loader.Registry.Tools =
      (pluginWrites h path).foldl (fun m w => m.set w.1 w.2) l.Registry.Tools := by
  rcases loadPlugin_cases h l path with ⟨-, hl, hw⟩ | ⟨p, info, exports, hopen, hinfo, hexp, hc⟩
  · rw [hl, hw]; rfl
  · rw [(loadPlugin_of_ok h l path p info exports hopen hinfo hexp hc).2.1]
    have hw : pluginWrites h path =
        exports.Tools.map (fun t => (toolName (TrimSuffix (Base path) ".so") t, t)) := by
      simp [pluginWrites, hopen, hinfo, hexp, hc]
    rw [hw]
    exact registerPlugin_tools _ _ _ _

theorem loadPlugin_dir (h : Host F) (l : Loader F) (path : String) :
    (l.LoadPlugin h path).loader.PluginsDir = l.PluginsDir := by
  rcases loadPlugin_cases h l path with ⟨-, hl, -⟩ | ⟨p, info, exports, hopen, hinfo, hexp, hc⟩
  · rw [hl]
  · rw [(loadPlugin_of_ok h l path p info exports hopen hinfo hexp hc).2.1]

theorem walkLoop_tools_dir (h : Host F) (steps : List WalkStep) (l : Loader F) (n : Nat)
    (ev : List (Event F)) :
    (walkLoop h steps l n ev).loader.Registry.Tools =
        (walkWrites h steps).foldl (fun m w => m.set w.1 w.2) l.Registry.Tools ∧
    (walkLoop h steps l n ev).loader.PluginsDir = l.PluginsDir := by
  induction steps generalizing l n ev with
  | nil => exact ⟨rfl, rfl⟩
  | cons step rest ih =>
    unfold walkLoop walkWrites
    cases herr : step.err with
    | some e => exact ⟨rfl, rfl⟩
    | none =>
      by_cases hcand : (!step.IsDir && HasSuffix step.path ".so") = true
      · simp only [hcand, if_true, List.foldl_append]
        rw [← loadPlugin_tools, ← loadPlugin_dir h l step.path]
        split
        · exact ih _ _ _
        · exact ih _ _ _
      · rw [Bool.not_eq_true] at hcand
        simp only [hcand, Bool.false_eq_true, if_false, List.nil_append]
        exact ih _ _ _

theorem loadAll_tools (h : Host F) (l : Loader F) :
    (l.LoadAll h).loader.Registry.Tools =
      (loadAllWrites h l.PluginsDir).foldl (fun m w => m.set w.1 w.2) l.Registry.Tools := by
  unfold Loader.LoadAll loadAllWrites
  split
  · rfl
  · exact (walkLoop_tools_dir h _ l 0 []).1

theorem loadAll_dir (h : Host F) (l : Loader F) :
    (l.LoadAll h).loader.PluginsDir = l.PluginsDir := by
  unfold Loader.LoadAll
  split
  · rfl
  · exact (walkLoop_tools_dir h _ l 0 []).2

theorem walkWrites_mem (h : Host F) (steps : List WalkStep) (c : String)
    (hc : c ∈ ((steps.takeWhile (fun step => step.err.isNone)).filter
        (fun step => !step.IsDir && HasSuffix step.path ".so")).map WalkStep.path)
    (w : String × Tool F) (hw : w ∈ pluginWrites h c) : w ∈ walkWrites h steps := by
  induction steps with
  | nil => simp at hc
  | cons step rest ih =>
    unfold walkWrites
    cases herr : step.err with
    | some e => simp [List.takeWhile_cons, herr] at hc
    | none =>
      simp only [List.takeWhile_cons, herr, Option.isNone_none, if_true] at hc
      by_cases hcand : (!step.IsDir && HasSuffix step.path ".so") = true
      · simp only [hcand, if_true, List.filter_cons, List.map_cons, List.mem_cons] at hc
        simp only [hcand, if_true, List.mem_append]
        rcases hc with rfl | hc
        · exact Or.inl hw
        · exact Or.inr (ih hc)
      · rw [Bool.not_eq_true] at hcand
        simp only [hcand, List.filter_cons, Bool.false_eq_true, if_false] at hc
        simp only [hcand, Bool.false_eq_true, if_false, List.nil_append]
        exact ih hc

theorem loadAllWrites_mem (h : Host F) (dir : String) (c : String)
    (hc : c ∈ candidates h dir) (w : String × Tool F) (hw : w ∈ pluginWrites h c) :
    w ∈ loadAllWrites h dir := by
  unfold candidates at hc
  unfold loadAllWrites
  split
  · rename_i hne
    simp [hne] at hc
  · rename_i hne
    simp only [hne] at hc
    exact walkWrites_mem h _ c hc w hw

end WalkLemmas

/-- C8. `LoadPlugin` returns an error when the binary cannot be opened, when the
symbol `ModuleInfo` or `ModuleExports` is missing or of the wrong type, and when
the compatibility gate rejects; whenever it returns an error the registry is what
it was before the call.  `LoadAll` returns the number of candidates of its directory for which
`LoadPlugin` returns no error, and the plugin of every such candidate is a key of
`ListPlugins` afterwards, whatever failed before it.  On `exampleHost`, whose
directory `plugins` holds the valid `calculator.so` and `broken.so` without the
symbol `ModuleInfo`, `LoadAll` of a new loader returns 1 and the only key of
`ListPlugins` is `calculator`. -/
theorem C8_failed_candidates_skipped {F : Type} (h : Host F) (l : Loader F) (path : String) :
    (∀ e, h.Open path = .error e →
      (l.LoadPlugin h path).err = some (.wrapped .ErrPluginLoadFailed e)) ∧
    (∀ p, h.Open path = .ok p → p.ModuleInfo = .missing ∨ p.ModuleInfo = .wrongType →
      (l.LoadPlugin h path).err = some .ErrMissingMetadata) ∧
    (∀ p info, h.Open path = .ok p → p.ModuleInfo = .ok info →
      p.ModuleExports = .missing ∨ p.ModuleExports = .wrongType →
      (l.LoadPlugin h path).err = some .ErrMissingExports) ∧
    (∀ p info exports, h.Open path = .ok p → p.ModuleInfo = .ok info →
      p.ModuleExports = .ok exports → isCompatible h.GOOS info = false →
      (l.LoadPlugin h path).err = some .ErrIncompatiblePlugin) ∧
    ((l.LoadPlugin h path).err ≠ none → (l.LoadPlugin h path).loader.Registry = l.Registry) ∧
    (l.LoadAll h).loaded =
      ((candidates h l.PluginsDir).filter (fun c => (l.LoadPlugin h c).err.isNone)).length ∧
    (∀ c ∈ candidates h l.PluginsDir, (l.LoadPlugin h c).err = none →
      TrimSuffix (Base c) ".so" ∈ (l.LoadAll h).loader.ListPlugins.keys) ∧
    candidates exampleHost "plugins" = ["plugins/broken.so", "plugins/calculator.so"] ∧
    ((NewLoader "plugins" true).LoadPlugin exampleHost "plugins/broken.so").err =
      some .ErrMissingMetadata ∧
    ((NewLoader "plugins" true).LoadPlugin exampleHost "plugins/calculator.so").err = none ∧
    ((NewLoader "plugins" true).LoadAll exampleHost).loaded = 1 ∧
    ((NewLoader "plugins" true).LoadAll exampleHost).loader.ListPlugins.keys =
      ["calculator"] := by
  refine ⟨?_, ?_, ?_, ?_, fun herr => by rw [loadPlugin_err_unchanged h l path herr], ?_, ?_,
    by decide, rfl, rfl, rfl, rfl⟩
  · intro e hopen
    simp [Loader.LoadPlugin, hopen]
  · rintro p hopen (hinfo | hinfo) <;> simp [Loader.LoadPlugin, hopen, hinfo]
  · rintro p info hopen hinfo (hexp | hexp) <;> simp [Loader.LoadPlugin, hopen, hinfo, hexp]
  · intro p info exports hopen hinfo hexp hc
    simp [Loader.LoadPlugin, hopen, hinfo, hexp, hc]
  · exact loadAll_loaded h l l
  · intro c hc hok
    unfold candidates at hc
    unfold Loader.LoadAll Loader.ListPlugins
    split
    · rename_i hne
      simp [hne] at hc
    · rename_i hne
      simp only [hne] at hc
      exact walkLoop_metadata_mem h l _ l 0 [] c hc hok

/-! ## C9: a successful `LoadPlugin` -/

/-- C9 fails as stated.  The module `more/twice.so` opens, exports well-shaped
metadata and exports and is compatible, and `LoadPlugin` returns no error for it;
its first declared tool, `addNumbersTool`, is not what `GetTool` returns under
`"twice.add_numbers"`: the second declared tool of that name has overwritten it. -/
theorem C9_shadowed_tool_not_retrievable :
    ((NewLoader "more" true).LoadPlugin exampleHost "more/twice.so").err = none ∧
    twicePlugin.ModuleExports =
      .ok { Tools := [addNumbersTool, intAddNumbersTool], Agents := [], Resources := [],
            Models := [], Utilities := [] } ∧
    ((NewLoader "more" true).LoadPlugin exampleHost "more/twice.so").loader.Registry.GetTool
        ("twice" ++ "." ++ addNumbersTool.Name) = some intAddNumbersTool ∧
    ((NewLoader "more" true).LoadPlugin exampleHost "more/twice.so").loader.Registry.GetTool
        ("twice" ++ "." ++ addNumbersTool.Name) ≠ some addNumbersTool := by
  have hget : ((NewLoader "more" true).LoadPlugin exampleHost
      "more/twice.so").loader.Registry.GetTool ("twice" ++ "." ++ addNumbersTool.Name) =
      some intAddNumbersTool := rfl
  refine ⟨rfl, rfl, hget, ?_⟩
  rw [hget]
  intro h
  have h' : intAddNumbersTool.ReturnType = addNumbersTool.ReturnType :=
    congrArg Tool.ReturnType (Option.some.inj h)
  exact absurd h' (by decide)

/-- C9, amended.  For a module that opens, exports well-shaped metadata and
exports and passes the compatibility gate, `LoadPlugin` returns no error, records
the plugin in `Plugins` and `Metadata` under the file's base name without `.so`,
and registers the qualified name of every declared tool: `GetTool` returns for it
the last declared tool of that name, which is the tool itself when the names of
the declared tools are distinct.  This holds whatever `Init` is.  `Init` is
invoked at most once, exactly once when it is present and well typed, and the
registry at that call is already the final one. -/
theorem C9_LoadPlugin_success {F : Type} (h : Host F) (l : Loader F) (path : String)
    (p : PluginFile F) (info : ModuleInfo) (exports : ModuleExports F)
    (hopen : h.Open path = .ok p) (hinfo : p.ModuleInfo = .ok info)
    (hexp : p.ModuleExports = .ok exports) (hcompat : isCompatible h.GOOS info = true) :
    (l.LoadPlugin h path).err = none ∧
    (l.LoadPlugin h path).loader.Registry.Plugins.get? (TrimSuffix (Base path) ".so") =
      some { Name := TrimSuffix (Base path) ".so", Info := info, Exports := exports,
             FilePath := path } ∧
    (l.LoadPlugin h path).loader.Registry.Metadata.get? (TrimSuffix (Base path) ".so") =
      some info ∧
    (∀ t ∈ exports.Tools, ∃ t' ∈ exports.Tools, t'.Name = t.Name ∧
      exports.Tools.reverse.find? (fun u => u.Name == t.Name) = some t' ∧
      (l.LoadPlugin h path).loader.Registry.GetTool
        (TrimSuffix (Base path) ".so" ++ "." ++ t.Name) = some t') ∧
    ((exports.Tools.map Tool.Name).Nodup → ∀ t ∈ exports.Tools,
      (l.LoadPlugin h path).loader.Registry.GetTool
        (TrimSuffix (Base path) ".so" ++ "." ++ t.Name) = some t) ∧
    (l.LoadPlugin h path).events.countP Event.isInit ≤ 1 ∧
    (∀ result, p.Init = .ok result →
      (l.LoadPlugin h path).events.countP Event.isInit = 1) ∧
    (∀ name registry, Event.initCalled name registry ∈ (l.LoadPlugin h path).events →
      name = TrimSuffix (Base path) ".so" ∧
      registry = (l.LoadPlugin h path).loader.Registry) := by
  obtain ⟨herr, hloader, hevents⟩ := loadPlugin_of_ok h l path p info exports hopen hinfo hexp
    hcompat
  have hreg : (l.LoadPlugin h path).loader.Registry =
      registerPlugin l.Registry path info exports := by rw [hloader]
  have hfind : ∀ t ∈ exports.Tools, ∃ t' ∈ exports.Tools, t'.Name = t.Name ∧
      exports.Tools.reverse.find? (fun u => u.Name == t.Name) = some t' := by
    intro t ht
    cases hf : exports.Tools.reverse.find? (fun u => u.Name == t.Name) with
    | none =>
      have := List.find?_eq_none.1 hf t (List.mem_reverse.2 ht)
      simp at this
    | some t' =>
      have hmem := List.mem_reverse.1 (List.mem_of_find?_eq_some hf)
      have hname := List.find?_some hf
      exact ⟨t', hmem, by simpa using hname, rfl⟩
  refine ⟨herr, ?_, ?_, ?_, ?_, ?_, ?_, ?_⟩
  · rw [hreg, registerPlugin_plugins, GoMap.get?_set_self]
  · rw [hreg, registerPlugin_metadata, GoMap.get?_set_self]
  · intro t ht
    obtain ⟨t', hmem, hname, hf⟩ := hfind t ht
    refine ⟨t', hmem, hname, hf, ?_⟩
    rw [hreg, registerPlugin_getTool, hf]
    rfl
  · intro hnodup t ht
    have hf : exports.Tools.reverse.find? (fun u => u.Name == t.Name) = some t :=
      find?_name_of_nodup _
        (by rw [List.map_reverse]; exact List.nodup_reverse.2 hnodup) t (List.mem_reverse.2 ht)
    rw [hreg, registerPlugin_getTool, hf]
    rfl
  · rw [hevents]
    cases p.Init with
    | missing => cases hs : l.Silent <;> simp [Loader.log, hs, Event.isInit]
    | wrongType => cases hs : l.Silent <;> simp [Loader.log, hs, Event.isInit]
    | ok result =>
      cases result <;> cases hs : l.Silent <;> simp [Loader.log, hs, Event.isInit]
  · intro result hinit
    rw [hevents, hinit]
    cases result <;> cases hs : l.Silent <;> simp [Loader.log, hs, Event.isInit]
  · intro name registry hmem
    rw [hevents] at hmem
    rw [hreg]
    cases hi : p.Init with
    | missing =>
      rw [hi] at hmem
      cases hs : l.Silent <;> simp [Loader.log, hs] at hmem
    | wrongType =>
      rw [hi] at hmem
      cases hs : l.Silent <;> simp [Loader.log, hs] at hmem
    | ok result =>
      rw [hi] at hmem
      cases result <;> cases hs : l.Silent <;> simp [Loader.log, hs] at hmem <;> exact hmem

/-- C9, amended, at the calculator plugin on `exampleHost`: loading
`plugins/calculator.so` returns no error and makes `add_numbers` retrievable as
`"calculator.add_numbers"`, and `Init` is called once. -/
theorem C9_LoadPlugin_success_witness :
    ((NewLoader "plugins" true).LoadPlugin exampleHost "plugins/calculator.so").err = none ∧
    ((NewLoader "plugins" true).LoadPlugin exampleHost
        "plugins/calculator.so").loader.Registry.GetTool "calculator.add_numbers" =
      some addNumbersTool ∧
    ((NewLoader "plugins" true).LoadPlugin exampleHost
        "plugins/calculator.so").events.countP Event.isInit = 1 :=
  have hthm := C9_LoadPlugin_success exampleHost (NewLoader "plugins" true)
    "plugins/calculator.so" calculatorPlugin calculatorInfo calculatorExports rfl rfl rfl
    (by decide)
  ⟨hthm.1,
    hthm.2.2.2.2.1 (by decide) addNumbersTool (List.mem_singleton.2 rfl),
    hthm.2.2.2.2.2.2.1 none rfl⟩

/-! ## C10: loading twice -/

/-- C10. On a host that does not change, a second `LoadAll` returns the count of
the first.  Every key it assigns in `Tools` (the qualified name of a tool of a
candidate that loads) is a key after the first `LoadAll` already, and after the
second `GetTool` returns for every name what it returned after the first.  The
names `ListTools` returns after the second are those it returned after the first
rearranged, as many, and without duplicates, whatever the orders of the two
`range` statements. -/
theorem C10_LoadAll_twice {F : Type} (h : Host F) (l : Loader F)
    (ρ₁ ρ₂ : RangeOrder (Tool F)) :
    ((l.LoadAll h).loader.LoadAll h).loaded = (l.LoadAll h).loaded ∧
    (∀ c ∈ candidates h (l.LoadAll h).loader.PluginsDir, ∀ p info exports,
      h.Open c = .ok p → p.ModuleInfo = .ok info → p.ModuleExports = .ok exports →
      isCompatible h.GOOS info = true → ∀ t ∈ exports.Tools,
        TrimSuffix (Base c) ".so" ++ "." ++ t.Name ∈ (l.LoadAll h).loader.Registry.Tools.keys) ∧
    (∀ name, ((l.LoadAll h).loader.LoadAll h).loader.GetTool name =
      (l.LoadAll h).loader.GetTool name) ∧
    (((l.LoadAll h).loader.LoadAll h).loader.ListTools ρ₂).Perm
      ((l.LoadAll h).loader.ListTools ρ₁) ∧
    (((l.LoadAll h).loader.LoadAll h).loader.ListTools ρ₂).length =
      ((l.LoadAll h).loader.ListTools ρ₁).length ∧
    (((l.LoadAll h).loader.LoadAll h).loader.ListTools ρ₂).Nodup := by
  have hdir := loadAll_dir h l
  have hget : ∀ name, ((l.LoadAll h).loader.LoadAll h).loader.Registry.Tools.get? name =
      (l.LoadAll h).loader.Registry.Tools.get? name := by
    intro name
    rw [loadAll_tools h (l.LoadAll h).loader, GoMap.get?_foldl_set, hdir, loadAll_tools h l,
      GoMap.get?_foldl_set]
    cases ((loadAllWrites h l.PluginsDir).reverse.find? (fun w => w.1 == name)).map Prod.snd <;>
      rfl
  have hperm : (((l.LoadAll h).loader.LoadAll h).loader.ListTools ρ₂).Perm
      ((l.LoadAll h).loader.ListTools ρ₁) := by
    refine ((listTools_perm _ ρ₂).trans ?_).trans (listTools_perm _ ρ₁).symm
    refine (List.perm_ext_iff_of_nodup (GoMap.nodup _) (GoMap.nodup _)).2 ?_
    intro k
    show k ∈ GoMap.keys _ ↔ k ∈ GoMap.keys _
    rw [GoMap.mem_keys_iff, GoMap.mem_keys_iff, hget]
  refine ⟨?_, ?_, hget, hperm, hperm.length_eq, listTools_nodup _ ρ₂⟩
  · rw [loadAll_loaded h (l.LoadAll h).loader l, hdir, ← loadAll_loaded h l l]
  · intro c hc p info exports hopen hinfo hexp hcompat t ht
    rw [hdir] at hc
    rw [loadAll_tools h l, GoMap.mem_keys_foldl_set]
    left
    have hw : pluginWrites h c =
        exports.Tools.map (fun t => (toolName (TrimSuffix (Base c) ".so") t, t)) := by
      simp [pluginWrites, hopen, hinfo, hexp, hcompat]
    have hmem : (toolName (TrimSuffix (Base c) ".so") t, t) ∈ pluginWrites h c := by
      rw [hw]; exact List.mem_map_of_mem _ ht
    exact List.mem_map.2 ⟨_, loadAllWrites_mem h _ c hc _ hmem, rfl⟩

end LdAgent
